import Mathlib

/-!
# LCG solution finder

A shallow embedding of `src/main.cpp` (the function `findSolution`) and a
verification development over it.

Conventions of the embedding.

* A C++ `int` is a Lean `Int` kept inside the signed 32-bit range: every
  `*`, `+` and `-` of the source is followed by `wrap`, the two's-complement
  reduction, so a product such as `x_1 * a` that leaves the range comes back
  as the value the usual targets compute.
* `%` is the truncating remainder of C++ (`Int.tmod`).  It is undefined for a
  zero divisor and for `INT_MIN % -1`; both are the fault `none`.
* Printing is modelled by the list of records printed so far, oldest first.
* The clock readings and the "Search time" line are left out.
-/

namespace LCG

/-! ## Machine arithmetic -/

/-- Smallest value of a 32-bit `int`. -/
def INT_MIN : Int := -2147483648

/-- Largest value of a 32-bit `int`. -/
def INT_MAX : Int := 2147483647

/-- Two's-complement reduction of an exact integer into the 32-bit range. -/
def wrap (x : Int) : Int := (x + 2147483648) % 4294967296 - 2147483648

/-- The `*` of the source on `int`. -/
def imul (x y : Int) : Int := wrap (x * y)

/-- The `+` of the source on `int`. -/
def iadd (x y : Int) : Int := wrap (x + y)

/-- The `-` of the source on `int`. -/
def isub (x y : Int) : Int := wrap (x - y)

/-- The `%` of the source on `int`: truncating remainder, with the two
undefined cases (zero divisor, `INT_MIN % -1`) reported as `none`. -/
def imod (x m : Int) : Option Int :=
  if m = 0 ∨ (x = INT_MIN ∧ m = -1) then none else some (Int.tmod x m)

/-! ## Data model -/

/-- The `enum class Mode` of the source. -/
inductive Mode
  | ALL_SOLUTIONS
  | FAST_SOLUTION
deriving DecidableEq, Repr

/-- One printed block: the lines `a = `, `c = `, `m = ` and `x_5 = `. -/
structure Solution where
  a : Int
  c : Int
  m : Int
  x_5 : Int
deriving DecidableEq, Repr

/-- The mutable variables of `findSolution` that survive an iteration,
together with the records printed so far. -/
structure State where
  out : List Solution
  solutionsCounter : Int
  isFound : Bool
deriving DecidableEq, Repr

/-- The last line printed: `Done.` or `No solution is found.`. -/
inductive Status
  | done
  | noSolution
deriving DecidableEq, Repr

/-- What a completed call has printed. -/
structure Report where
  records : List Solution
  status : Status
deriving DecidableEq, Repr

/-! ## The search -/

/-- The constant `M_MAX` of `findSolution`. -/
def M_MAX : Int := 65535

/-- Lines 77-78: `c = x_2 - ((x_1 * a) % m); if (c < 0) c += m;`. -/
def deriveC (x_1 x_2 a m : Int) : Option Int :=
  (imod (imul x_1 a) m).map fun r =>
    let c := isub x_2 r
    if c < 0 then iadd c m else c

/-- Lines 80-83: the condition of the `if`, a short-circuit conjunction of
three recurrence checks and the guard `c >= 0`. -/
def verify (x_1 x_2 x_3 x_4 a c m : Int) : Option Bool :=
  (imod (iadd (imul a x_1) c) m).bind fun r_2 =>
    if x_2 = r_2 then
      (imod (iadd (imul a x_2) c) m).bind fun r_3 =>
        if x_3 = r_3 then
          (imod (iadd (imul a x_3) c) m).bind fun r_4 =>
            if x_4 = r_4 then some (decide (c ≥ 0)) else some false
        else some false
    else some false

/-- Lines 77-89: one pass through the body of the inner loop for the
candidate `(a, m)`.  `none` is a fault, `some none` a candidate that is not
printed, `some (some r)` the record that is printed. -/
def candidate (x_1 x_2 x_3 x_4 a m : Int) : Option (Option Solution) :=
  (deriveC x_1 x_2 a m).bind fun c =>
    (verify x_1 x_2 x_3 x_4 a c m).bind fun ok =>
      if ok then
        (imod (iadd (imul a x_4) c) m).map fun x_5 => some ⟨a, c, m, x_5⟩
      else some none

/-- Lines 75-97: the inner loop `for (...; m < M_MAX && !isFound; ++m)`,
entered with the current value of `m`.  The loop body is the argument
`body`.  `++m` cannot leave the `int` range because `m < M_MAX` holds when
it runs. -/
def innerLoop (body : Int → Int → Option (Option Solution)) (mode : Mode)
    (a m : Int) (s : State) : Option State :=
  if m < M_MAX ∧ s.isFound = false then
    match body a m with
    | none => none
    | some none => innerLoop body mode a (m + 1) s
    | some (some r) =>
      if mode = Mode.FAST_SOLUTION then
        some ⟨s.out ++ [r], iadd s.solutionsCounter 1, true⟩
      else
        innerLoop body mode a (m + 1) ⟨s.out ++ [r], iadd s.solutionsCounter 1, s.isFound⟩
  else some s
termination_by (M_MAX - m).toNat
decreasing_by all_goals (simp_wf; omega)

/-- Lines 73-98: the outer loop `for (...; a < M_MAX && !isFound; ++a)`,
entered with the current value of `a`; each pass starts the inner loop at
`m = x_1`. -/
def outerLoop (body : Int → Int → Option (Option Solution)) (mode : Mode)
    (x_1 a : Int) (s : State) : Option State :=
  if a < M_MAX ∧ s.isFound = false then
    match innerLoop body mode a x_1 s with
    | none => none
    | some s' => outerLoop body mode x_1 (a + 1) s'
  else some s
termination_by (M_MAX - a).toNat
decreasing_by all_goals (simp_wf; omega)

/-- Lines 67-103 with the loop body as an argument: both loops from
`a = 0`, `solutionsCounter = 0`, `isFound = false`, then the status line.
The initial value `x_1 > 2 ? x_1 : 2` of `m` (line 71) is overwritten by the
`m = x_1` of the inner loop before it is read, so it does not appear. -/
def findSolutionWith (body : Int → Int → Option (Option Solution))
    (x_1 : Int) (mode : Mode) : Option Report :=
  (outerLoop body mode x_1 0 ⟨[], 0, false⟩).map fun s =>
    ⟨s.out, if s.solutionsCounter ≠ 0 then Status.done else Status.noSolution⟩

/-- The function `findSolution` of the source. -/
def findSolution (x_1 x_2 x_3 x_4 : Int) (mode : Mode) : Option Report :=
  findSolutionWith (candidate x_1 x_2 x_3 x_4) x_1 mode

/-! ## The search without the `c >= 0` conjunct

A second copy of the condition and of the body in which the last conjunct of
lines 80-83 is deleted; everything else is unchanged. -/

/-- Lines 80-82 only: the three recurrence checks, without `c >= 0`. -/
def verifyNoGuard (x_1 x_2 x_3 x_4 a c m : Int) : Option Bool :=
  (imod (iadd (imul a x_1) c) m).bind fun r_2 =>
    if x_2 = r_2 then
      (imod (iadd (imul a x_2) c) m).bind fun r_3 =>
        if x_3 = r_3 then
          (imod (iadd (imul a x_3) c) m).bind fun r_4 =>
            if x_4 = r_4 then some true else some false
        else some false
    else some false

/-- The loop body with `verifyNoGuard` in place of `verify`. -/
def candidateNoGuard (x_1 x_2 x_3 x_4 a m : Int) : Option (Option Solution) :=
  (deriveC x_1 x_2 a m).bind fun c =>
    (verifyNoGuard x_1 x_2 x_3 x_4 a c m).bind fun ok =>
      if ok then
        (imod (iadd (imul a x_4) c) m).map fun x_5 => some ⟨a, c, m, x_5⟩
      else some none

/-- The search of `findSolution` with the guard `c >= 0` removed. -/
def findSolutionNoGuard (x_1 x_2 x_3 x_4 : Int) (mode : Mode) : Option Report :=
  findSolutionWith (candidateNoGuard x_1 x_2 x_3 x_4) x_1 mode

/-! ## The scan as a list

Auxiliary definitions for the proofs: the candidates in the order in which
the two loops visit them, and the loops replayed over that list. -/

/-- The integers `lo, lo + 1, ...`, `n` of them. -/
def countFrom (lo : Int) : Nat → List Int
  | 0 => []
  | n + 1 => lo :: countFrom (lo + 1) n

/-- The moduli one run of the inner loop visits: `x_1, ..., M_MAX - 1`. -/
def row (x_1 : Int) : List Int := countFrom x_1 (M_MAX - x_1).toNat

/-- The candidates of `n` consecutive passes of the outer loop from `a`. -/
def gridFrom (x_1 a : Int) (n : Nat) : List (Int × Int) :=
  (countFrom a n).flatMap fun a' => (row x_1).map fun m => (a', m)

/-- All candidates `(a, m)` in scan order. -/
def grid (x_1 : Int) : List (Int × Int) := gridFrom x_1 0 65535

/-- The record a candidate prints, if any (a fault prints nothing). -/
def hit (body : Int → Int → Option (Option Solution)) (p : Int × Int) : Option Solution :=
  (body p.1 p.2).join

/-- The records the candidates of a list print, in order. -/
def hits (body : Int → Int → Option (Option Solution)) (l : List (Int × Int)) : List Solution :=
  l.filterMap (hit body)

/-- The two loops replayed over a list of candidates. -/
def runCands (body : Int → Int → Option (Option Solution)) (mode : Mode) :
    List (Int × Int) → State → Option State
  | [], s => some s
  | p :: rest, s =>
    if s.isFound = false then
      match body p.1 p.2 with
      | none => none
      | some none => runCands body mode rest s
      | some (some r) =>
        if mode = Mode.FAST_SOLUTION then
          some ⟨s.out ++ [r], iadd s.solutionsCounter 1, true⟩
        else
          runCands body mode rest ⟨s.out ++ [r], iadd s.solutionsCounter 1, s.isFound⟩
    else some s

/-- The status line and records of a final state. -/
def report (s : State) : Report :=
  ⟨s.out, if s.solutionsCounter ≠ 0 then Status.done else Status.noSolution⟩

/-- Strict lexicographic order on the pair `(a, m)` of two records. -/
def lexLt (r s : Solution) : Prop := r.a < s.a ∨ (r.a = s.a ∧ r.m < s.m)

/-- Strict lexicographic order on candidates `(a, m)`. -/
def pairLt (p q : Int × Int) : Prop := p.1 < q.1 ∨ (p.1 = q.1 ∧ p.2 < q.2)

/-- One increment `++solutionsCounter`. -/
def bump (c : Int) : Int := iadd c 1

/-- The value of `c` after lines 77-78, for a modulus on which `%` is defined. -/
def cOf (x_1 x_2 a m : Int) : Int :=
  let c := isub x_2 (Int.tmod (imul x_1 a) m)
  if c < 0 then iadd c m else c

/-- The condition of lines 80-83 at the derived `c`, for a modulus on which
`%` is defined. -/
def passes (x_1 x_2 x_3 x_4 a m : Int) : Prop :=
  x_2 = Int.tmod (iadd (imul a x_1) (cOf x_1 x_2 a m)) m ∧
  x_3 = Int.tmod (iadd (imul a x_2) (cOf x_1 x_2 a m)) m ∧
  x_4 = Int.tmod (iadd (imul a x_3) (cOf x_1 x_2 a m)) m ∧
  0 ≤ cOf x_1 x_2 a m

instance (x_1 x_2 x_3 x_4 a m : Int) : Decidable (passes x_1 x_2 x_3 x_4 a m) := by
  unfold passes
  infer_instance

/-- The record lines 85-88 print for the candidate `(a, m)`. -/
def recordOf (x_1 x_2 x_4 a m : Int) : Solution :=
  ⟨a, cOf x_1 x_2 a m, m, Int.tmod (iadd (imul a x_4) (cOf x_1 x_2 a m)) m⟩

/-- A value that a 32-bit `int` can hold. -/
def fitsInt (x : Int) : Prop := INT_MIN ≤ x ∧ x ≤ INT_MAX

instance (x : Int) : Decidable (fitsInt x) := by
  unfold fitsInt
  infer_instance

/-! ## The search in exact integer arithmetic

A copy of the loop body in which `*`, `+` and `-` are the exact operations of
`Int` (no `wrap`); `%` is still the truncating remainder and still faults on a
zero divisor.  The loops are the same. -/

/-- Truncating remainder on exact integers; `none` on a zero divisor. -/
def imodExact (x m : Int) : Option Int :=
  if m = 0 then none else some (Int.tmod x m)

/-- Lines 77-78 in exact arithmetic. -/
def deriveCExact (x_1 x_2 a m : Int) : Option Int :=
  (imodExact (x_1 * a) m).map fun r =>
    let c := x_2 - r
    if c < 0 then c + m else c

/-- Lines 80-83 in exact arithmetic. -/
def verifyExact (x_1 x_2 x_3 x_4 a c m : Int) : Option Bool :=
  (imodExact (a * x_1 + c) m).bind fun r_2 =>
    if x_2 = r_2 then
      (imodExact (a * x_2 + c) m).bind fun r_3 =>
        if x_3 = r_3 then
          (imodExact (a * x_3 + c) m).bind fun r_4 =>
            if x_4 = r_4 then some (decide (c ≥ 0)) else some false
        else some false
    else some false

/-- Lines 77-89 in exact arithmetic. -/
def candidateExact (x_1 x_2 x_3 x_4 a m : Int) : Option (Option Solution) :=
  (deriveCExact x_1 x_2 a m).bind fun c =>
    (verifyExact x_1 x_2 x_3 x_4 a c m).bind fun ok =>
      if ok then
        (imodExact (a * x_4 + c) m).map fun x_5 => some ⟨a, c, m, x_5⟩
      else some none

/-- The search of `findSolution` with the loop body in exact arithmetic. -/
def findSolutionExact (x_1 x_2 x_3 x_4 : Int) (mode : Mode) : Option Report :=
  findSolutionWith (candidateExact x_1 x_2 x_3 x_4) x_1 mode

/-! ## Input

Standard input is the list of lines not yet read.  The library functions
`std::stoi` and `atoi` are arguments: `stoi` answers `none` where `std::stoi`
throws (no number at the start of the line, or a number outside `int`). -/

/-- Lines 20-48: `getIntFromCin`.  Each pass of the `do ... while` prints the
caption, reads one line and accepts it when `stoi` yields a value in
`[min, max]`; the result is that value with the lines still unread.  At the
end of the input `std::getline` leaves the buffer empty, `std::stoi` throws on
it and the loop never ends: `none`. -/
def getIntFromCin (stoi : String → Option Int) (caption : String) (min max : Int) :
    List String → Option (Int × List String)
  | [] => none
  | buffer :: rest =>
    match stoi buffer with
    | some result =>
      if result ≥ min ∧ result ≤ max then some (result, rest)
      else getIntFromCin stoi caption min max rest
    | none => getIntFromCin stoi caption min max rest

/-- Lines 123-126: the four prompts of the `else` branch of `main`. -/
def interactive (stoi : String → Option Int) (lines : List String) :
    Option (Int × Int × Int × Int) :=
  (getIntFromCin stoi "Please enter the x_1" 0 65535 lines).bind fun r_1 =>
    (getIntFromCin stoi "Please enter the x_2" 0 65535 r_1.2).bind fun r_2 =>
      (getIntFromCin stoi "Please enter the x_3" 0 65535 r_2.2).bind fun r_3 =>
        (getIntFromCin stoi "Please enter the x_4" 0 65535 r_3.2).map fun r_4 =>
          (r_1.1, r_2.1, r_3.1, r_4.1)

/-- Lines 109-127: the values `main` passes to `findSolution`.  `argv` is the
whole argument vector, program name first, and `argc` is its length. -/
def mainArgs (atoi : String → Int) (stoi : String → Option Int) (argv lines : List String) :
    Option (Int × Int × Int × Int) :=
  match argv with
  | [s_0, s_1, s_2, s_3] => some (atoi s_0, atoi s_1, atoi s_2, atoi s_3)
  | _ => interactive stoi lines

/-- The function `main`: the search in ALL_SOLUTIONS mode on the values read. -/
def main (atoi : String → Int) (stoi : String → Option Int) (argv lines : List String) :
    Option Report :=
  (mainArgs atoi stoi argv lines).bind fun w =>
    findSolution w.1 w.2.1 w.2.2.1 w.2.2.2 Mode.ALL_SOLUTIONS

/-! ## The loops are the replay over the grid -/

theorem runCands_found (body : Int → Int → Option (Option Solution)) (mode : Mode)
    (l : List (Int × Int)) (s : State) (h : s.isFound = true) :
    runCands body mode l s = some s := by
  cases l with
  | nil => rfl
  | cons p rest => simp [runCands, h]

theorem runCands_append (body : Int → Int → Option (Option Solution)) (mode : Mode)
    (l₁ l₂ : List (Int × Int)) (s : State) :
    runCands body mode (l₁ ++ l₂) s = (runCands body mode l₁ s).bind (runCands body mode l₂) := by
  induction l₁ generalizing s with
  | nil => simp [runCands]
  | cons p rest ih =>
    by_cases hf : s.isFound = false
    · simp only [List.cons_append, runCands, hf, if_true]
      rcases hb : body p.1 p.2 with _ | _ | r
      · simp
      · simp [ih]
      · by_cases hm : mode = Mode.FAST_SOLUTION
        · simp [hm, runCands_found]
        · simp [hm, ih]
    · have hf' : s.isFound = true := by simpa using hf
      simp [runCands_found, hf']

theorem innerLoop_eq_run (body : Int → Int → Option (Option Solution)) (mode : Mode)
    (a : Int) (n : Nat) : ∀ (m : Int) (s : State), (M_MAX - m).toNat = n →
    innerLoop body mode a m s = runCands body mode ((countFrom m n).map fun m' => (a, m')) s := by
  induction n with
  | zero =>
    intro m s h
    have hm : ¬ m < M_MAX := by omega
    rw [innerLoop]
    simp [hm, countFrom, runCands]
  | succ n ih =>
    intro m s h
    have hm : m < M_MAX := by omega
    have hn : (M_MAX - (m + 1)).toNat = n := by omega
    rw [innerLoop]
    by_cases hf : s.isFound = false
    · simp only [hm, hf, and_self, if_true, countFrom, List.map_cons, runCands]
      rcases hb : body a m with _ | _ | r
      · rfl
      · simp [ih (m + 1) s hn]
      · by_cases hmode : mode = Mode.FAST_SOLUTION
        · simp [hmode]
        · simp [hmode, ih (m + 1) _ hn]
    · have hf' : s.isFound = true := by simpa using hf
      simp [hf', runCands_found]

theorem outerLoop_eq_run (body : Int → Int → Option (Option Solution)) (mode : Mode)
    (x_1 : Int) (n : Nat) : ∀ (a : Int) (s : State), (M_MAX - a).toNat = n →
    outerLoop body mode x_1 a s = runCands body mode (gridFrom x_1 a n) s := by
  induction n with
  | zero =>
    intro a s h
    have ha : ¬ a < M_MAX := by omega
    rw [outerLoop]
    simp [ha, gridFrom, countFrom, runCands]
  | succ n ih =>
    intro a s h
    have ha : a < M_MAX := by omega
    have hn : (M_MAX - (a + 1)).toNat = n := by omega
    rw [outerLoop]
    by_cases hf : s.isFound = false
    · have hg : gridFrom x_1 a (n + 1)
          = ((row x_1).map fun m => (a, m)) ++ gridFrom x_1 (a + 1) n := by
        simp [gridFrom, countFrom]
      have hrow := innerLoop_eq_run body mode a _ x_1 s rfl
      rw [hg, runCands_append, row, ← hrow]
      simp only [ha, hf, and_self, if_true]
      rcases hi : innerLoop body mode a x_1 s with _ | s'
      · rfl
      · simp [ih (a + 1) s' hn]
    · have hf' : s.isFound = true := by simpa using hf
      simp [hf', runCands_found]

theorem findSolutionWith_eq_run (body : Int → Int → Option (Option Solution))
    (x_1 : Int) (mode : Mode) :
    findSolutionWith body x_1 mode
      = (runCands body mode (grid x_1) ⟨[], 0, false⟩).map report := by
  unfold findSolutionWith grid
  rw [outerLoop_eq_run body mode x_1 65535 0 _ (by decide)]
  rfl

/-! ## The grid -/

theorem mem_countFrom (n : Nat) : ∀ (lo x : Int),
    x ∈ countFrom lo n ↔ lo ≤ x ∧ x < lo + n := by
  induction n with
  | zero => intro lo x; simp [countFrom]
  | succ n ih => intro lo x; simp [countFrom, ih]; omega

theorem countFrom_pairwise (n : Nat) : ∀ lo : Int,
    (countFrom lo n).Pairwise (fun x y => x < y) := by
  induction n with
  | zero => intro lo; simp [countFrom]
  | succ n ih =>
    intro lo
    simp only [countFrom, List.pairwise_cons]
    refine ⟨?_, ih (lo + 1)⟩
    intro y hy
    rw [mem_countFrom] at hy
    omega

theorem mem_row (x_1 m : Int) : m ∈ row x_1 ↔ x_1 ≤ m ∧ m < M_MAX := by
  unfold row
  rw [mem_countFrom]
  omega

theorem mem_grid (x_1 a m : Int) :
    (a, m) ∈ grid x_1 ↔ (0 ≤ a ∧ a < M_MAX) ∧ (x_1 ≤ m ∧ m < M_MAX) := by
  unfold grid gridFrom
  simp only [List.mem_flatMap, List.mem_map, Prod.mk.injEq]
  constructor
  · rintro ⟨a', ha', m', hm', rfl, rfl⟩
    rw [mem_countFrom] at ha'
    rw [mem_row] at hm'
    exact ⟨⟨ha'.1, by unfold M_MAX; omega⟩, hm'⟩
  · rintro ⟨⟨h0, h1⟩, hm⟩
    refine ⟨a, ?_, m, (mem_row x_1 m).2 hm, rfl, rfl⟩
    rw [mem_countFrom]
    unfold M_MAX at h1
    omega

theorem grid_pairwise (x_1 : Int) : (grid x_1).Pairwise pairLt := by
  unfold grid gridFrom
  rw [List.pairwise_flatMap]
  constructor
  · intro a _
    rw [List.pairwise_map]
    exact (countFrom_pairwise _ x_1).imp fun h => Or.inr ⟨rfl, h⟩
  · refine (countFrom_pairwise _ 0).imp ?_
    intro a b hab p hp q hq
    simp only [List.mem_map] at hp hq
    obtain ⟨_, _, rfl⟩ := hp
    obtain ⟨_, _, rfl⟩ := hq
    exact Or.inl hab

/-! ## What the replay prints -/

theorem hits_cons_fault (body : Int → Int → Option (Option Solution)) (p : Int × Int)
    (l : List (Int × Int)) (h : body p.1 p.2 = some none) :
    hits body (p :: l) = hits body l := by
  simp [hits, hit, List.filterMap_cons, h]

theorem hits_cons_hit (body : Int → Int → Option (Option Solution)) (p : Int × Int)
    (l : List (Int × Int)) (r : Solution) (h : body p.1 p.2 = some (some r)) :
    hits body (p :: l) = r :: hits body l := by
  simp [hits, hit, List.filterMap_cons, h]

theorem mem_hits (body : Int → Int → Option (Option Solution)) (l : List (Int × Int))
    (r : Solution) : r ∈ hits body l ↔ ∃ p ∈ l, body p.1 p.2 = some (some r) := by
  unfold hits hit
  rw [List.mem_filterMap]
  constructor
  · rintro ⟨p, hp, h⟩
    refine ⟨p, hp, ?_⟩
    rcases hb : body p.1 p.2 with _ | _ | r' <;> simp_all
  · rintro ⟨p, hp, h⟩
    exact ⟨p, hp, by simp [h]⟩

theorem runCands_sublist (body : Int → Int → Option (Option Solution)) (mode : Mode) :
    ∀ (l : List (Int × Int)) (s s' : State), runCands body mode l s = some s' →
      ∃ hs, hs.Sublist (hits body l) ∧ s'.out = s.out ++ hs := by
  intro l
  induction l with
  | nil =>
    intro s s' h
    simp only [runCands, Option.some.injEq] at h
    exact ⟨[], List.nil_sublist _, by simp [h]⟩
  | cons p rest ih =>
    intro s s' h
    by_cases hf : s.isFound = false
    · simp only [runCands, hf, if_true] at h
      rcases hb : body p.1 p.2 with _ | _ | r
      · simp [hb] at h
      · simp only [hb] at h
        rw [hits_cons_fault body p rest hb]
        exact ih s s' h
      · simp only [hb] at h
        rw [hits_cons_hit body p rest r hb]
        by_cases hm : mode = Mode.FAST_SOLUTION
        · simp only [hm, if_true, Option.some.injEq] at h
          refine ⟨[r], ?_, by simp [← h]⟩
          simp
        · simp only [hm, if_false] at h
          obtain ⟨hs, hsub, hout⟩ := ih _ s' h
          exact ⟨r :: hs, hsub.cons₂ r, by simp [hout]⟩
    · have hf' : s.isFound = true := by simpa using hf
      rw [runCands_found body mode _ s hf', Option.some.injEq] at h
      exact ⟨[], List.nil_sublist _, by simp [h]⟩

theorem runCands_all (body : Int → Int → Option (Option Solution)) :
    ∀ (l : List (Int × Int)) (s : State), (∀ p ∈ l, body p.1 p.2 ≠ none) →
      s.isFound = false →
      runCands body Mode.ALL_SOLUTIONS l s
        = some ⟨s.out ++ hits body l, bump^[(hits body l).length] s.solutionsCounter, false⟩ := by
  intro l
  induction l with
  | nil =>
    intro s _ hf
    cases s
    simp_all [runCands, hits]
  | cons p rest ih =>
    intro s hne hf
    have hrest : ∀ q ∈ rest, body q.1 q.2 ≠ none := fun q hq => hne q (List.mem_cons_of_mem _ hq)
    simp only [runCands, hf, if_true]
    rcases hb : body p.1 p.2 with _ | _ | r
    · exact absurd hb (hne p (List.mem_cons_self _ _))
    · simp only []
      rw [hits_cons_fault body p rest hb]
      exact ih s hrest hf
    · simp only []
      rw [hits_cons_hit body p rest r hb, if_neg (by decide)]
      rw [ih ⟨s.out ++ [r], iadd s.solutionsCounter 1, false⟩ hrest rfl]
      simp [Function.iterate_succ_apply, bump]

theorem runCands_fast (body : Int → Int → Option (Option Solution)) :
    ∀ (l : List (Int × Int)) (s : State), (∀ p ∈ l, body p.1 p.2 ≠ none) →
      s.isFound = false →
      runCands body Mode.FAST_SOLUTION l s
        = some (match hits body l with
                | [] => s
                | r :: _ => ⟨s.out ++ [r], iadd s.solutionsCounter 1, true⟩) := by
  intro l
  induction l with
  | nil =>
    intro s _ _
    rfl
  | cons p rest ih =>
    intro s hne hf
    have hrest : ∀ q ∈ rest, body q.1 q.2 ≠ none := fun q hq => hne q (List.mem_cons_of_mem _ hq)
    simp only [runCands, hf, if_true]
    rcases hb : body p.1 p.2 with _ | _ | r
    · exact absurd hb (hne p (List.mem_cons_self _ _))
    · simp only []
      rw [hits_cons_fault body p rest hb]
      exact ih s hrest hf
    · simp only []
      rw [hits_cons_hit body p rest r hb]

theorem findSolutionWith_sublist (body : Int → Int → Option (Option Solution))
    (x_1 : Int) (mode : Mode) (rep : Report)
    (h : findSolutionWith body x_1 mode = some rep) :
    rep.records.Sublist (hits body (grid x_1)) := by
  rw [findSolutionWith_eq_run] at h
  rcases hr : runCands body mode (grid x_1) ⟨[], 0, false⟩ with _ | s'
  · simp [hr] at h
  · obtain ⟨hs, hsub, hout⟩ := runCands_sublist body mode _ _ _ hr
    simp only [hr, Option.map_some', Option.some.injEq] at h
    subst h
    simpa [report, hout] using hsub

theorem findSolutionWith_all (body : Int → Int → Option (Option Solution)) (x_1 : Int)
    (h : ∀ p ∈ grid x_1, body p.1 p.2 ≠ none) :
    findSolutionWith body x_1 Mode.ALL_SOLUTIONS
      = some (report ⟨hits body (grid x_1), bump^[(hits body (grid x_1)).length] 0, false⟩) := by
  rw [findSolutionWith_eq_run, runCands_all body _ _ h rfl]
  simp

theorem findSolutionWith_fast (body : Int → Int → Option (Option Solution)) (x_1 : Int)
    (h : ∀ p ∈ grid x_1, body p.1 p.2 ≠ none) :
    findSolutionWith body x_1 Mode.FAST_SOLUTION
      = some (match hits body (grid x_1) with
              | [] => ⟨[], Status.noSolution⟩
              | r :: _ => ⟨[r], Status.done⟩) := by
  rw [findSolutionWith_eq_run, runCands_fast body _ _ h rfl]
  rcases hits body (grid x_1) with _ | ⟨r, t⟩
  · rfl
  · rfl

theorem findSolutionWith_fault (body : Int → Int → Option (Option Solution)) (x_1 : Int)
    (mode : Mode) (hx : x_1 < M_MAX) (h : body 0 x_1 = none) :
    findSolutionWith body x_1 mode = none := by
  unfold findSolutionWith
  rw [outerLoop, innerLoop]
  have h0 : (0 : Int) < M_MAX := by decide
  simp [hx, h, h0]

/-! ## The loop body -/

theorem imod_of_pos (x m : Int) (h : 1 ≤ m) : imod x m = some (Int.tmod x m) := by
  unfold imod
  rw [if_neg]
  omega

theorem deriveC_of_pos (x_1 x_2 a m : Int) (h : 1 ≤ m) :
    deriveC x_1 x_2 a m = some (cOf x_1 x_2 a m) := by
  simp [deriveC, cOf, imod_of_pos _ m h]

theorem candidate_of_pos (x_1 x_2 x_3 x_4 a m : Int) (h : 1 ≤ m) :
    candidate x_1 x_2 x_3 x_4 a m
      = some (if passes x_1 x_2 x_3 x_4 a m then some (recordOf x_1 x_2 x_4 a m) else none) := by
  unfold candidate verify passes recordOf
  simp only [deriveC_of_pos x_1 x_2 a m h, imod_of_pos _ m h, Option.some_bind, Option.map_some']
  by_cases h2 : x_2 = Int.tmod (iadd (imul a x_1) (cOf x_1 x_2 a m)) m
  · by_cases h3 : x_3 = Int.tmod (iadd (imul a x_2) (cOf x_1 x_2 a m)) m
    · by_cases h4 : x_4 = Int.tmod (iadd (imul a x_3) (cOf x_1 x_2 a m)) m
      · by_cases hc : 0 ≤ cOf x_1 x_2 a m
        · simp [← h2, ← h3, ← h4, hc]
        · simp [← h2, ← h3, ← h4, hc]
      · simp [← h2, ← h3, h4]
    · simp [← h2, h3]
  · simp [h2]

theorem candidate_zero (x_1 x_2 x_3 x_4 a : Int) : candidate x_1 x_2 x_3 x_4 a 0 = none := by
  simp [candidate, deriveC, imod]

theorem candidate_grid_ne_none (x_1 x_2 x_3 x_4 : Int) (h : 1 ≤ x_1) :
    ∀ p ∈ grid x_1, candidate x_1 x_2 x_3 x_4 p.1 p.2 ≠ none := by
  rintro ⟨a, m⟩ hp
  rw [mem_grid] at hp
  rw [candidate_of_pos _ _ _ _ _ _ (by omega)]
  simp

theorem mem_hits_candidate (x_1 x_2 x_3 x_4 : Int) (h : 1 ≤ x_1) (r : Solution) :
    r ∈ hits (candidate x_1 x_2 x_3 x_4) (grid x_1) ↔
      ∃ a m, (0 ≤ a ∧ a < M_MAX) ∧ (x_1 ≤ m ∧ m < M_MAX) ∧
        passes x_1 x_2 x_3 x_4 a m ∧ r = recordOf x_1 x_2 x_4 a m := by
  rw [mem_hits]
  constructor
  · rintro ⟨⟨a, m⟩, hp, hb⟩
    rw [mem_grid] at hp
    rw [candidate_of_pos _ _ _ _ _ _ (by omega)] at hb
    by_cases hpass : passes x_1 x_2 x_3 x_4 a m
    · simp only [hpass, if_true, Option.some.injEq] at hb
      exact ⟨a, m, hp.1, hp.2, hpass, hb.symm⟩
    · simp [hpass] at hb
  · rintro ⟨a, m, ha, hm, hpass, rfl⟩
    refine ⟨(a, m), (mem_grid x_1 a m).2 ⟨ha, hm⟩, ?_⟩
    rw [candidate_of_pos _ _ _ _ _ _ (by omega)]
    simp [hpass]

theorem findSolution_zero (x_2 x_3 x_4 : Int) (mode : Mode) :
    findSolution 0 x_2 x_3 x_4 mode = none :=
  findSolutionWith_fault _ 0 mode (by decide) (candidate_zero 0 x_2 x_3 x_4 0)

theorem findSolution_all (x_1 x_2 x_3 x_4 : Int) (h : 1 ≤ x_1) :
    ∃ rep, findSolution x_1 x_2 x_3 x_4 Mode.ALL_SOLUTIONS = some rep ∧
      rep.records = hits (candidate x_1 x_2 x_3 x_4) (grid x_1) :=
  ⟨_, findSolutionWith_all _ x_1 (candidate_grid_ne_none x_1 x_2 x_3 x_4 h), rfl⟩

theorem candidate_tag (x_1 x_2 x_3 x_4 a m : Int) (r : Solution)
    (h : candidate x_1 x_2 x_3 x_4 a m = some (some r)) : r.a = a ∧ r.m = m := by
  unfold candidate at h
  rcases hc : deriveC x_1 x_2 a m with _ | c
  · simp [hc] at h
  · rcases hv : verify x_1 x_2 x_3 x_4 a c m with _ | ok
    · simp [hc, hv] at h
    · cases ok
      · simp [hc, hv] at h
      · rcases hx : imod (iadd (imul a x_4) c) m with _ | x_5
        · simp [hc, hv, hx] at h
        · simp [hc, hv, hx] at h
          subst h
          exact ⟨rfl, rfl⟩

theorem hits_candidate_pairwise (x_1 x_2 x_3 x_4 : Int) :
    (hits (candidate x_1 x_2 x_3 x_4) (grid x_1)).Pairwise lexLt := by
  unfold hits
  refine List.Pairwise.filterMap _ ?_ (grid_pairwise x_1)
  intro p q hpq r hr s hs
  have hr' : candidate x_1 x_2 x_3 x_4 p.1 p.2 = some (some r) := by
    rcases hb : candidate x_1 x_2 x_3 x_4 p.1 p.2 with _ | _ | r' <;>
      simp_all [hit]
  have hs' : candidate x_1 x_2 x_3 x_4 q.1 q.2 = some (some s) := by
    rcases hb : candidate x_1 x_2 x_3 x_4 q.1 q.2 with _ | _ | s' <;>
      simp_all [hit]
  obtain ⟨ha, hm⟩ := candidate_tag _ _ _ _ _ _ _ hr'
  obtain ⟨ha', hm'⟩ := candidate_tag _ _ _ _ _ _ _ hs'
  unfold lexLt
  unfold pairLt at hpq
  rw [ha, hm, ha', hm']
  exact hpq

theorem lexLt_irrefl (r : Solution) : ¬ lexLt r r := by
  unfold lexLt
  omega

theorem head_of_pairwise (l : List Solution) (r : Solution) (hl : l.Pairwise lexLt)
    (hr : r ∈ l) (hmin : ∀ s ∈ l, ¬ lexLt s r) : ∃ t, l = r :: t := by
  cases l with
  | nil => simp at hr
  | cons x t =>
    rcases List.mem_cons.1 hr with rfl | hrt
    · exact ⟨t, rfl⟩
    · exact absurd ((List.pairwise_cons.1 hl).1 r hrt) (hmin x (List.mem_cons_self _ _))

theorem runCands_congr (body body' : Int → Int → Option (Option Solution)) (mode : Mode) :
    ∀ (l : List (Int × Int)) (s : State), (∀ p ∈ l, body p.1 p.2 = body' p.1 p.2) →
      runCands body mode l s = runCands body' mode l s := by
  intro l
  induction l with
  | nil => intro s _; rfl
  | cons p rest ih =>
    intro s h
    have hp := h p (List.mem_cons_self _ _)
    have hrest : ∀ q ∈ rest, body q.1 q.2 = body' q.1 q.2 :=
      fun q hq => h q (List.mem_cons_of_mem _ hq)
    simp only [runCands, hp, ih _ hrest]

theorem findSolutionWith_congr (body body' : Int → Int → Option (Option Solution))
    (x_1 : Int) (mode : Mode) (h : ∀ p ∈ grid x_1, body p.1 p.2 = body' p.1 p.2) :
    findSolutionWith body x_1 mode = findSolutionWith body' x_1 mode := by
  rw [findSolutionWith_eq_run, findSolutionWith_eq_run, runCands_congr body body' mode _ _ h]

/-! ## Machine arithmetic without overflow -/

theorem wrap_of_range (x : Int) (h0 : -2147483648 ≤ x) (h1 : x ≤ 2147483647) : wrap x = x := by
  unfold wrap
  omega

theorem tmod_bounds (x m : Int) (hm : 1 ≤ m) : -m < Int.tmod x m ∧ Int.tmod x m < m := by
  refine ⟨?_, Int.tmod_lt_of_pos x (by omega)⟩
  have h := Int.tmod_lt_of_pos (-x) (show 0 < m by omega)
  rw [Int.tmod_def, Int.neg_tdiv] at h
  have h' := Int.tmod_def x m
  rw [h']
  have e : -x - m * -x.tdiv m = -(x - m * x.tdiv m) := by ring
  rw [e] at h
  omega

theorem cOf_nonneg (x_1 x_2 a m : Int) (hx : 0 ≤ x_2 ∧ x_2 ≤ 65535)
    (hm : 1 ≤ m ∧ m < 65535) : 0 ≤ cOf x_1 x_2 a m ∧ cOf x_1 x_2 a m < x_2 + m := by
  obtain ⟨hlo, hhi⟩ := tmod_bounds (imul x_1 a) m hm.1
  unfold cOf isub iadd wrap
  generalize Int.tmod (imul x_1 a) m = r at hlo hhi
  simp only []
  split <;> omega

/-! ## The window `(7, 6, 9, 0)` -/

theorem no_earlier_7_6_9_0 (a m : Int) (ha : 0 ≤ a) (hm : 7 ≤ m ∧ m < 65535)
    (h : a < 7 ∨ (a = 7 ∧ m < 10)) : ¬ passes 7 6 9 0 a m := by
  rintro ⟨h2, h3, _, _⟩
  have hc := cOf_nonneg 7 6 a m (by decide) ⟨by omega, hm.2⟩
  have hb3 := tmod_bounds (iadd (imul a 6) (cOf 7 6 a m)) m (by omega)
  rw [← h3] at hb3
  generalize cOf 7 6 a m = c at *
  have e1 : iadd (imul a 7) c = a * 7 + c := by unfold iadd imul wrap; omega
  have e2 : iadd (imul a 6) c = a * 6 + c := by unfold iadd imul wrap; omega
  rw [e1, Int.tmod_eq_emod (by omega) (by omega)] at h2
  rw [e2, Int.tmod_eq_emod (by omega) (by omega)] at h3
  have d2 := Int.dvd_sub_of_emod_eq h2.symm
  have d3 := Int.dvd_sub_of_emod_eq h3.symm
  have d : m ∣ a + 3 := by
    have hd := Int.dvd_sub d2 d3
    have e : a * 7 + c - 6 - (a * 6 + c - 9) = a + 3 := by ring
    rwa [e] at hd
  have hle := Int.le_of_dvd (by omega) d
  omega

theorem hits_7_6_9_0 :
    ∃ t, hits (candidate 7 6 9 0) (grid 7) = (⟨7, 7, 10, 7⟩ : Solution) :: t := by
  apply head_of_pairwise _ _ (hits_candidate_pairwise 7 6 9 0)
  · rw [mem_hits_candidate 7 6 9 0 (by decide)]
    exact ⟨7, 10, by decide, by decide, by decide, by decide⟩
  · intro s hs hlt
    rw [mem_hits_candidate 7 6 9 0 (by decide)] at hs
    obtain ⟨a, m, ha, hm, hp, rfl⟩ := hs
    exact no_earlier_7_6_9_0 a m ha.1 hm hlt hp

theorem findSolution_7_6_9_0_fast :
    findSolution 7 6 9 0 Mode.FAST_SOLUTION
      = some ⟨[⟨7, 7, 10, 7⟩], Status.done⟩ := by
  obtain ⟨t, ht⟩ := hits_7_6_9_0
  unfold findSolution
  rw [findSolutionWith_fast _ _ (candidate_grid_ne_none 7 6 9 0 (by decide)), ht]

/-! ## The first candidate -/

theorem first_record_of_first_candidate (x_1 x_2 x_3 x_4 : Int) (h : 1 ≤ x_1 ∧ x_1 < 65535)
    (hp : passes x_1 x_2 x_3 x_4 0 x_1) :
    ∃ t, hits (candidate x_1 x_2 x_3 x_4) (grid x_1) = recordOf x_1 x_2 x_4 0 x_1 :: t := by
  apply head_of_pairwise _ _ (hits_candidate_pairwise x_1 x_2 x_3 x_4)
  · rw [mem_hits_candidate x_1 x_2 x_3 x_4 h.1]
    exact ⟨0, x_1, by decide, ⟨le_refl _, h.2⟩, hp, rfl⟩
  · intro s hs hlt
    rw [mem_hits_candidate x_1 x_2 x_3 x_4 h.1] at hs
    obtain ⟨a, m, ha, hm, _, rfl⟩ := hs
    have hlt' : a < 0 ∨ (a = 0 ∧ m < x_1) := hlt
    omega

/-! ## Reading the input -/

theorem getIntFromCin_some (stoi : String → Option Int) (caption : String) (min max : Int) :
    ∀ (lines : List String) (v : Int) (rest : List String),
      getIntFromCin stoi caption min max lines = some (v, rest) →
      ∃ pre buffer, lines = pre ++ buffer :: rest ∧ stoi buffer = some v ∧
        (min ≤ v ∧ v ≤ max) ∧
        ∀ l ∈ pre, ∀ w, stoi l = some w → ¬ (min ≤ w ∧ w ≤ max) := by
  intro lines
  induction lines with
  | nil => intro v rest h; simp [getIntFromCin] at h
  | cons b t ih =>
    intro v rest h
    rcases hb : stoi b with _ | w
    · simp only [getIntFromCin, hb] at h
      obtain ⟨pre, buffer, hl, hs, hr, hpre⟩ := ih v rest h
      refine ⟨b :: pre, buffer, by rw [hl]; rfl, hs, hr, ?_⟩
      intro l hlmem w' hw'
      rcases List.mem_cons.1 hlmem with rfl | hmem
      · rw [hb] at hw'; cases hw'
      · exact hpre l hmem w' hw'
    · by_cases hv : w ≥ min ∧ w ≤ max
      · simp only [getIntFromCin, hb, hv, and_self, if_true, Option.some.injEq,
          Prod.mk.injEq] at h
        obtain ⟨rfl, rfl⟩ := h
        exact ⟨[], b, rfl, hb, ⟨hv.1, hv.2⟩, by simp⟩
      · simp only [getIntFromCin, hb, hv, if_false] at h
        obtain ⟨pre, buffer, hl, hs, hr, hpre⟩ := ih v rest h
        refine ⟨b :: pre, buffer, by rw [hl]; rfl, hs, hr, ?_⟩
        intro l hlmem w' hw'
        rcases List.mem_cons.1 hlmem with rfl | hmem
        · rw [hb] at hw'
          cases hw'
          exact fun hc => hv ⟨hc.1, hc.2⟩
        · exact hpre l hmem w' hw'

theorem getIntFromCin_returns (stoi : String → Option Int) (caption : String) (min max : Int) :
    ∀ lines : List String,
      (∃ l ∈ lines, ∃ w, stoi l = some w ∧ min ≤ w ∧ w ≤ max) →
      ∃ v rest, getIntFromCin stoi caption min max lines = some (v, rest) := by
  intro lines
  induction lines with
  | nil => rintro ⟨l, hl, _⟩; simp at hl
  | cons b t ih =>
    rintro ⟨l, hl, w, hw, hlo, hhi⟩
    rcases hb : stoi b with _ | u
    · rcases List.mem_cons.1 hl with rfl | hmem
      · rw [hb] at hw; cases hw
      · simpa [getIntFromCin, hb] using ih ⟨l, hmem, w, hw, hlo, hhi⟩
    · by_cases hv : u ≥ min ∧ u ≤ max
      · exact ⟨u, t, by simp [getIntFromCin, hb, hv]⟩
      · rcases List.mem_cons.1 hl with rfl | hmem
        · rw [hb] at hw
          cases hw
          exact absurd ⟨hlo, hhi⟩ hv
        · simpa [getIntFromCin, hb, hv] using ih ⟨l, hmem, w, hw, hlo, hhi⟩

theorem getIntFromCin_accepts (stoi : String → Option Int) (caption : String) (min max : Int)
    (b : String) (t : List String) (v : Int) (hb : stoi b = some v)
    (hv : min ≤ v ∧ v ≤ max) :
    getIntFromCin stoi caption min max (b :: t) = some (v, t) := by
  have hv' : v ≥ min ∧ v ≤ max := ⟨hv.1, hv.2⟩
  simp [getIntFromCin, hb, hv']

theorem mainArgs_interactive (atoi : String → Int) (stoi : String → Option Int)
    (argv lines : List String) (h : argv.length ≠ 4) :
    mainArgs atoi stoi argv lines = interactive stoi lines := by
  unfold mainArgs
  split
  · simp at h
  · rfl

theorem interactive_range (stoi : String → Option Int) (lines : List String)
    (x_1 x_2 x_3 x_4 : Int) (h : interactive stoi lines = some (x_1, x_2, x_3, x_4)) :
    (0 ≤ x_1 ∧ x_1 ≤ 65535) ∧ (0 ≤ x_2 ∧ x_2 ≤ 65535) ∧
      (0 ≤ x_3 ∧ x_3 ≤ 65535) ∧ (0 ≤ x_4 ∧ x_4 ≤ 65535) := by
  unfold interactive at h
  rcases h1 : getIntFromCin stoi "Please enter the x_1" 0 65535 lines with _ | ⟨v1, l1⟩
  · simp [h1] at h
  rcases h2 : getIntFromCin stoi "Please enter the x_2" 0 65535 l1 with _ | ⟨v2, l2⟩
  · simp [h1, h2] at h
  rcases h3 : getIntFromCin stoi "Please enter the x_3" 0 65535 l2 with _ | ⟨v3, l3⟩
  · simp [h1, h2, h3] at h
  rcases h4 : getIntFromCin stoi "Please enter the x_4" 0 65535 l3 with _ | ⟨v4, l4⟩
  · simp [h1, h2, h3, h4] at h
  simp only [h1, h2, h3, h4, Option.some_bind, Option.map_some', Option.some.injEq,
    Prod.mk.injEq] at h
  obtain ⟨rfl, rfl, rfl, rfl⟩ := h
  obtain ⟨_, _, _, _, r1, _⟩ := getIntFromCin_some _ _ _ _ _ _ _ h1
  obtain ⟨_, _, _, _, r2, _⟩ := getIntFromCin_some _ _ _ _ _ _ _ h2
  obtain ⟨_, _, _, _, r3, _⟩ := getIntFromCin_some _ _ _ _ _ _ _ h3
  obtain ⟨_, _, _, _, r4, _⟩ := getIntFromCin_some _ _ _ _ _ _ _ h4
  exact ⟨r1, r2, r3, r4⟩

/-! ## The overflow-free windows -/

theorem mul_bounds (a x : Int) (ha : 0 ≤ a ∧ a < 65535) (hx : 0 ≤ x ∧ x ≤ 32768) :
    0 ≤ a * x ∧ a * x ≤ 2147418112 := by
  refine ⟨Int.mul_nonneg ha.1 hx.1, ?_⟩
  have h := Int.mul_le_mul (show a ≤ 65534 by omega) hx.2 hx.1 (by decide : (0 : Int) ≤ 65534)
  omega

theorem imodExact_of_pos (x m : Int) (h : 1 ≤ m) : imodExact x m = some (Int.tmod x m) := by
  unfold imodExact
  rw [if_neg]
  omega

theorem cOf_exact (x_1 x_2 a m : Int) (h1 : 0 ≤ x_1 ∧ x_1 ≤ 32768)
    (h2 : 0 ≤ x_2 ∧ x_2 ≤ 32768) (ha : 0 ≤ a ∧ a < 65535) (hm : 1 ≤ m ∧ m < 65535) :
    cOf x_1 x_2 a m
        = (if x_2 - Int.tmod (x_1 * a) m < 0 then x_2 - Int.tmod (x_1 * a) m + m
            else x_2 - Int.tmod (x_1 * a) m) ∧
      0 ≤ cOf x_1 x_2 a m ∧ cOf x_1 x_2 a m ≤ 65533 := by
  have hP := mul_bounds a x_1 ha h1
  rw [Int.mul_comm] at hP
  have hmul : imul x_1 a = x_1 * a := wrap_of_range _ (by omega) (by omega)
  have hr0 : 0 ≤ Int.tmod (x_1 * a) m := Int.tmod_nonneg m hP.1
  have hr1 : Int.tmod (x_1 * a) m < m := Int.tmod_lt_of_pos _ (by omega)
  unfold cOf
  rw [hmul]
  generalize Int.tmod (x_1 * a) m = r at hr0 hr1
  unfold isub iadd wrap
  simp only []
  refine ⟨?_, ?_, ?_⟩ <;> split <;> (try split) <;> omega

theorem sum_exact (a x c : Int) (ha : 0 ≤ a ∧ a < 65535) (hx : 0 ≤ x ∧ x ≤ 32768)
    (hc : 0 ≤ c ∧ c ≤ 65533) :
    iadd (imul a x) c = a * x + c ∧ 0 ≤ a * x + c ∧ a * x + c ≤ 2147483647 := by
  have hP := mul_bounds a x ha hx
  have hmul : imul a x = a * x := wrap_of_range _ (by omega) (by omega)
  unfold iadd
  rw [hmul, wrap_of_range _ (by omega) (by omega)]
  omega

theorem candidateExact_eq (x_1 x_2 x_3 x_4 a m : Int) (h1 : 0 ≤ x_1 ∧ x_1 ≤ 32768)
    (h2 : 0 ≤ x_2 ∧ x_2 ≤ 32768) (h3 : 0 ≤ x_3 ∧ x_3 ≤ 32768) (h4 : 0 ≤ x_4 ∧ x_4 ≤ 32768)
    (ha : 0 ≤ a ∧ a < 65535) (hm : 1 ≤ m ∧ m < 65535) :
    candidateExact x_1 x_2 x_3 x_4 a m = candidate x_1 x_2 x_3 x_4 a m := by
  obtain ⟨hce, hc0, hc1⟩ := cOf_exact x_1 x_2 a m h1 h2 ha hm
  have hd : deriveCExact x_1 x_2 a m = some (cOf x_1 x_2 a m) := by
    unfold deriveCExact
    rw [imodExact_of_pos _ m hm.1, hce]
    rfl
  have s1 := (sum_exact a x_1 _ ha h1 ⟨hc0, hc1⟩).1
  have s2 := (sum_exact a x_2 _ ha h2 ⟨hc0, hc1⟩).1
  have s3 := (sum_exact a x_3 _ ha h3 ⟨hc0, hc1⟩).1
  have s4 := (sum_exact a x_4 _ ha h4 ⟨hc0, hc1⟩).1
  unfold candidateExact candidate verifyExact verify
  simp only [hd, deriveC_of_pos x_1 x_2 a m hm.1, imodExact_of_pos _ m hm.1,
    imod_of_pos _ m hm.1, Option.some_bind, ← s1, ← s2, ← s3, ← s4]

/-! ## The claims -/

/-- C1 (soundness in exact arithmetic) does not hold of the code: on the window
`(65532, 0, 0, 0)` the all-solutions search prints the record `a = 65524`,
`c = 0`, `m = 65533`, because the 32-bit product `65532 * 65524` wraps to
`-1048528`, a multiple of `65533`; in exact arithmetic
`(65524 * 65532 + 0) mod 65533` is `9`, not `x_2 = 0`. -/
theorem soundness_broken_by_overflow :
    imul 65532 65524 = -1048528 ∧
    (∃ rep, findSolution 65532 0 0 0 Mode.ALL_SOLUTIONS = some rep ∧
      (⟨65524, 0, 65533, 0⟩ : Solution) ∈ rep.records) ∧
    (65524 * 65532 + 0 : Int) % 65533 = 9 ∧ (65524 * 65532 + 0 : Int) % 65533 ≠ 0 := by
  refine ⟨by decide, ?_, by decide, by decide⟩
  obtain ⟨rep, hrep, hrec⟩ := findSolution_all 65532 0 0 0 (by decide)
  refine ⟨rep, hrep, ?_⟩
  rw [hrec, mem_hits_candidate 65532 0 0 0 (by decide)]
  exact ⟨65524, 65533, by decide, by decide, by decide, by decide⟩

/-- C2 (completeness under ALL_SOLUTIONS) does not hold of the code: the
window `(65532, 9, 65452, 729)` is generated by `a = 65524`, `c = 0`,
`m = 65533`, a triple inside the bounded space that satisfies the three
congruences in exact arithmetic, yet the completed all-solutions search prints
no record with `a = 65524` and `m = 65533`. -/
theorem completeness_broken_by_overflow :
    ((65524 * 65532 + 0 : Int) % 65533 = 9 ∧ (65524 * 9 + 0 : Int) % 65533 = 65452 ∧
      (65524 * 65452 + 0 : Int) % 65533 = 729) ∧
    ∃ rep, findSolution 65532 9 65452 729 Mode.ALL_SOLUTIONS = some rep ∧
      ∀ r ∈ rep.records, ¬ (r.a = 65524 ∧ r.m = 65533) := by
  refine ⟨by decide, ?_⟩
  obtain ⟨rep, hrep, hrec⟩ := findSolution_all 65532 9 65452 729 (by decide)
  refine ⟨rep, hrep, ?_⟩
  intro r hr
  rw [hrec, mem_hits_candidate 65532 9 65452 729 (by decide)] at hr
  obtain ⟨a, m, _, _, hp, rfl⟩ := hr
  rintro ⟨ha, hm⟩
  have ha' : a = 65524 := ha
  have hm' : m = 65533 := hm
  subst ha' hm'
  revert hp
  decide

/-- C3: for a window with every value in `[0, 65535]`, the records of the
FAST_SOLUTION search are the first `min 1 n` records of the ALL_SOLUTIONS
search of the same window, and the one search faults exactly when the other
does. -/
theorem fast_records_are_head_of_all (x_1 x_2 x_3 x_4 : Int)
    (h1 : 0 ≤ x_1 ∧ x_1 ≤ 65535) (h2 : 0 ≤ x_2 ∧ x_2 ≤ 65535)
    (h3 : 0 ≤ x_3 ∧ x_3 ≤ 65535) (h4 : 0 ≤ x_4 ∧ x_4 ≤ 65535) :
    (findSolution x_1 x_2 x_3 x_4 Mode.FAST_SOLUTION).map Report.records
      = (findSolution x_1 x_2 x_3 x_4 Mode.ALL_SOLUTIONS).map
          fun rep => rep.records.take 1 := by
  rcases Int.lt_or_le x_1 1 with h0 | hpos
  · have hz : x_1 = 0 := by omega
    subst hz
    rw [findSolution_zero, findSolution_zero]
    rfl
  · have hne := candidate_grid_ne_none x_1 x_2 x_3 x_4 hpos
    unfold findSolution
    rw [findSolutionWith_fast _ _ hne, findSolutionWith_all _ _ hne]
    rcases hits (candidate x_1 x_2 x_3 x_4) (grid x_1) with _ | ⟨r, t⟩
    · rfl
    · rfl

/-- Witness of C3 at the window `(7, 6, 9, 0)`. -/
theorem fast_records_are_head_of_all_witness :
    ((0 : Int) ≤ 7 ∧ (7 : Int) ≤ 65535) ∧ ((0 : Int) ≤ 6 ∧ (6 : Int) ≤ 65535) ∧
    ((0 : Int) ≤ 9 ∧ (9 : Int) ≤ 65535) ∧ ((0 : Int) ≤ 0 ∧ (0 : Int) ≤ 65535) ∧
    (findSolution 7 6 9 0 Mode.FAST_SOLUTION).map Report.records
      = (findSolution 7 6 9 0 Mode.ALL_SOLUTIONS).map fun rep => rep.records.take 1 :=
  ⟨by decide, by decide, by decide, by decide,
    fast_records_are_head_of_all 7 6 9 0 (by decide) (by decide) (by decide) (by decide)⟩

/-- C4: whatever the window and the mode, the records of a completed search
are strictly increasing in the lexicographic order on `(a, m)`, so no record
is printed twice. -/
theorem records_strictly_increasing (x_1 x_2 x_3 x_4 : Int) (mode : Mode) (rep : Report)
    (h : findSolution x_1 x_2 x_3 x_4 mode = some rep) :
    rep.records.Pairwise (fun r s => r.a < s.a ∨ (r.a = s.a ∧ r.m < s.m)) ∧
      rep.records.Nodup := by
  have hp : rep.records.Pairwise lexLt :=
    (hits_candidate_pairwise x_1 x_2 x_3 x_4).sublist (findSolutionWith_sublist _ _ _ _ h)
  refine ⟨hp, hp.imp ?_⟩
  intro r s hrs he
  subst he
  exact lexLt_irrefl r hrs

/-- Witness of C4 at the window `(5, 0, 0, 0)` in ALL_SOLUTIONS mode: the
completed search prints, among others, the three records `(a, m) = (0, 5)`,
`(0, 6)` and `(1, 5)`, so the ordering is between records that differ in `m`
only and records that differ in `a`. -/
theorem records_strictly_increasing_witness :
    ∃ rep, findSolution 5 0 0 0 Mode.ALL_SOLUTIONS = some rep ∧
      ((⟨0, 0, 5, 0⟩ : Solution) ∈ rep.records ∧ (⟨0, 0, 6, 0⟩ : Solution) ∈ rep.records ∧
        (⟨1, 0, 5, 0⟩ : Solution) ∈ rep.records) ∧
      rep.records.Pairwise (fun r s => r.a < s.a ∨ (r.a = s.a ∧ r.m < s.m)) ∧
      rep.records.Nodup := by
  obtain ⟨rep, hrep, hrec⟩ := findSolution_all 5 0 0 0 (by decide)
  refine ⟨rep, hrep, ⟨?_, ?_, ?_⟩,
    records_strictly_increasing 5 0 0 0 Mode.ALL_SOLUTIONS rep hrep⟩
  · rw [hrec, mem_hits_candidate 5 0 0 0 (by decide)]
    exact ⟨0, 5, by decide, by decide, by decide, by decide⟩
  · rw [hrec, mem_hits_candidate 5 0 0 0 (by decide)]
    exact ⟨0, 6, by decide, by decide, by decide, by decide⟩
  · rw [hrec, mem_hits_candidate 5 0 0 0 (by decide)]
    exact ⟨1, 5, by decide, by decide, by decide, by decide⟩

/-- C5 (totality on `[0, 65535]`) does not hold of the code: with `x_1 = 0`
the first candidate is `a = 0`, `m = 0`, and `(x_1 * a) % m` is a remainder by
zero, in either mode and whatever the other three values. -/
theorem modulo_by_zero_when_x1_is_zero (x_2 x_3 x_4 : Int) (mode : Mode) :
    candidate 0 x_2 x_3 x_4 0 0 = none ∧ findSolution 0 x_2 x_3 x_4 mode = none :=
  ⟨candidate_zero 0 x_2 x_3 x_4 0, findSolution_zero x_2 x_3 x_4 mode⟩

/-- C6 (the window `(0, 0, 0, 0)` yields a record) does not hold of the code:
in both modes the search faults on the remainder by zero of its first
candidate and prints no record. -/
theorem zero_window_faults :
    findSolution 0 0 0 0 Mode.ALL_SOLUTIONS = none ∧
      findSolution 0 0 0 0 Mode.FAST_SOLUTION = none :=
  ⟨findSolution_zero 0 0 0 _, findSolution_zero 0 0 0 _⟩

/-- C7: on the window `(7, 6, 9, 0)` the FAST_SOLUTION search prints exactly
the record `a = 7`, `c = 7`, `m = 10`, `x_5 = 7`; the ALL_SOLUTIONS search
completes and its sequence starts with that record; and no candidate before
`(7, 10)` in scan order is printed. -/
theorem test_vector_7_6_9_0 :
    findSolution 7 6 9 0 Mode.FAST_SOLUTION = some ⟨[⟨7, 7, 10, 7⟩], Status.done⟩ ∧
    (∃ rep t, findSolution 7 6 9 0 Mode.ALL_SOLUTIONS = some rep ∧
      rep.records = (⟨7, 7, 10, 7⟩ : Solution) :: t) ∧
    (∀ a m : Int, (0 ≤ a ∧ a < 65535) → (7 ≤ m ∧ m < 65535) →
      (a < 7 ∨ (a = 7 ∧ m < 10)) → candidate 7 6 9 0 a m = some none) := by
  refine ⟨findSolution_7_6_9_0_fast, ?_, ?_⟩
  · obtain ⟨rep, hrep, hrec⟩ := findSolution_all 7 6 9 0 (by decide)
    obtain ⟨t, ht⟩ := hits_7_6_9_0
    exact ⟨rep, t, hrep, hrec.trans ht⟩
  · intro a m ha hm h
    rw [candidate_of_pos 7 6 9 0 a m (by omega), if_neg (no_earlier_7_6_9_0 a m ha.1 hm h)]

/-- C8: on the window `(157, 5054, 25789, 13214)` the ALL_SOLUTIONS search
completes and prints at least one record; the candidate `a = 31`,
`m = 32768` passes the checks with `c = 187` and `x_5 = 16605`. -/
theorem test_vector_157 :
    ∃ rep, findSolution 157 5054 25789 13214 Mode.ALL_SOLUTIONS = some rep ∧
      (⟨31, 187, 32768, 16605⟩ : Solution) ∈ rep.records ∧ rep.records ≠ [] := by
  obtain ⟨rep, hrep, hrec⟩ := findSolution_all 157 5054 25789 13214 (by decide)
  have hmem : (⟨31, 187, 32768, 16605⟩ : Solution) ∈ rep.records := by
    rw [hrec, mem_hits_candidate 157 5054 25789 13214 (by decide)]
    exact ⟨31, 32768, by decide, by decide, by decide, by decide⟩
  exact ⟨rep, hrep, hmem, List.ne_nil_of_mem hmem⟩

/-- C9 as stated does not hold: at the scanned candidate `a = 0`, `m = 5` of
the window `(1, 100, 0, 0)` the derived `c` is `100`, outside `[0, 5)`; and at
the scanned candidate `a = 65524`, `m = 65533` of `(65532, 0, 0, 0)` the
derived `c` is `0`, for which `a * x_1 + c` is not congruent to `x_2`. -/
theorem derived_c_counterexample :
    (deriveC 1 100 0 5 = some 100 ∧ ¬ ((100 : Int) < 5)) ∧
    (deriveC 65532 0 65524 65533 = some 0 ∧
      ¬ ((65524 * 65532 + 0 : Int) % 65533 = 0 % 65533)) := by
  decide

/-- C9 amended: for `x_1`, `x_2` in `[0, 65535]` and a scanned candidate
`(a, m)` with `0 <= a < 65535` and `max x_1 1 <= m < 65535`, if moreover
`x_2 < m` and the product `a * x_1` does not exceed `INT_MAX`, then the
derived `c` lies in `[0, m)` and is the only value of that range with
`a * x_1 + c` congruent to `x_2` modulo `m`. -/
theorem derived_c_unique_residue (x_1 x_2 a m : Int)
    (h1 : 0 ≤ x_1 ∧ x_1 ≤ 65535) (h2 : 0 ≤ x_2 ∧ x_2 ≤ 65535)
    (ha : 0 ≤ a ∧ a < 65535) (hm : max x_1 1 ≤ m ∧ m < 65535)
    (hlt : x_2 < m) (hno : a * x_1 ≤ 2147483647) :
    ∃ c, deriveC x_1 x_2 a m = some c ∧ (0 ≤ c ∧ c < m) ∧
      (a * x_1 + c) % m = x_2 % m ∧
      ∀ c', 0 ≤ c' → c' < m → (a * x_1 + c') % m = x_2 % m → c' = c := by
  have hm1 : 1 ≤ m := le_trans (le_max_right x_1 1) hm.1
  have hP0 : 0 ≤ x_1 * a := Int.mul_nonneg h1.1 ha.1
  have hP1 : x_1 * a ≤ 2147483647 := by rw [Int.mul_comm]; exact hno
  have hmul : imul x_1 a = x_1 * a := wrap_of_range _ (by omega) hP1
  have hr0 : 0 ≤ (x_1 * a) % m := Int.emod_nonneg _ (by omega)
  have hr1 : (x_1 * a) % m < m := Int.emod_lt_of_pos _ (by omega)
  have hdef : (x_1 * a) % m = x_1 * a - m * (x_1 * a / m) := Int.emod_def _ _
  have hc : cOf x_1 x_2 a m
      = if x_2 - (x_1 * a) % m < 0 then x_2 - (x_1 * a) % m + m else x_2 - (x_1 * a) % m := by
    unfold cOf
    rw [hmul, Int.tmod_eq_emod hP0 (by omega)]
    unfold isub iadd wrap
    simp only []
    split <;> split <;> omega
  have hrange : 0 ≤ cOf x_1 x_2 a m ∧ cOf x_1 x_2 a m < m := by
    rw [hc]; split <;> omega
  have hcong : (a * x_1 + cOf x_1 x_2 a m) % m = x_2 % m := by
    rw [hc, Int.mul_comm a x_1]
    split
    · have e : x_1 * a + (x_2 - x_1 * a % m + m) = x_2 + m * (x_1 * a / m + 1) := by
        rw [hdef]; ring
      rw [e, Int.add_mul_emod_self_left]
    · have e : x_1 * a + (x_2 - x_1 * a % m) = x_2 + m * (x_1 * a / m) := by
        rw [hdef]; ring
      rw [e, Int.add_mul_emod_self_left]
  refine ⟨cOf x_1 x_2 a m, deriveC_of_pos x_1 x_2 a m hm1, hrange, hcong, ?_⟩
  intro c' h0 hlt' hc'
  have heq : (a * x_1 + c') % m = (a * x_1 + cOf x_1 x_2 a m) % m := hc'.trans hcong.symm
  have hd : m ∣ (a * x_1 + c') - (a * x_1 + cOf x_1 x_2 a m) :=
    Int.dvd_of_emod_eq_zero (Int.emod_eq_emod_iff_emod_sub_eq_zero.1 heq)
  have e : (a * x_1 + c') - (a * x_1 + cOf x_1 x_2 a m) = c' - cOf x_1 x_2 a m := by ring
  rw [e] at hd
  have hz := Int.eq_zero_of_abs_lt_dvd hd (by rw [abs_lt]; constructor <;> omega)
  omega

/-- Witness of amended C9 at `x_1 = 7`, `x_2 = 6`, `a = 7`, `m = 10`. -/
theorem derived_c_unique_residue_witness :
    ((0 : Int) ≤ 7 ∧ (7 : Int) ≤ 65535) ∧ ((0 : Int) ≤ 6 ∧ (6 : Int) ≤ 65535) ∧
    ((0 : Int) ≤ 7 ∧ (7 : Int) < 65535) ∧ (max (7 : Int) 1 ≤ 10 ∧ (10 : Int) < 65535) ∧
    (6 : Int) < 10 ∧ (7 * 7 : Int) ≤ 2147483647 ∧
    ∃ c, deriveC 7 6 7 10 = some c ∧ (0 ≤ c ∧ c < 10) ∧
      (7 * 7 + c) % 10 = 6 % 10 ∧
      ∀ c', 0 ≤ c' → c' < 10 → (7 * 7 + c') % 10 = 6 % 10 → c' = c :=
  ⟨by decide, by decide, by decide, by decide, by decide, by decide,
    derived_c_unique_residue 7 6 7 10 (by decide) (by decide) (by decide) (by decide)
      (by decide) (by decide)⟩

/-- C10: for a window with every value in `[0, 65535]`, the `c` derived at any
scanned candidate with `m >= 1` is non-negative, and the search with the
conjunct `c >= 0` removed returns what `findSolution` returns, in either
mode. -/
theorem guard_is_redundant (x_1 x_2 x_3 x_4 : Int) (mode : Mode)
    (h1 : 0 ≤ x_1 ∧ x_1 ≤ 65535) (h2 : 0 ≤ x_2 ∧ x_2 ≤ 65535)
    (h3 : 0 ≤ x_3 ∧ x_3 ≤ 65535) (h4 : 0 ≤ x_4 ∧ x_4 ≤ 65535) :
    (∀ a m c : Int, (0 ≤ a ∧ a < 65535) → (x_1 ≤ m ∧ 1 ≤ m ∧ m < 65535) →
      deriveC x_1 x_2 a m = some c → 0 ≤ c) ∧
    findSolutionNoGuard x_1 x_2 x_3 x_4 mode = findSolution x_1 x_2 x_3 x_4 mode := by
  constructor
  · intro a m c _ hm hc
    rw [deriveC_of_pos x_1 x_2 a m hm.2.1, Option.some.injEq] at hc
    rw [← hc]
    exact (cOf_nonneg x_1 x_2 a m h2 hm.2).1
  · unfold findSolutionNoGuard findSolution
    apply findSolutionWith_congr
    rintro ⟨a, m⟩ hp
    rw [mem_grid] at hp
    have hM : m < 65535 := hp.2.2
    rcases Int.lt_or_le m 1 with h0 | hpos
    · have hz : m = 0 := by omega
      subst hz
      rw [candidate_zero]
      simp [candidateNoGuard, deriveC, imod]
    · have hc := (cOf_nonneg x_1 x_2 a m h2 ⟨hpos, hM⟩).1
      have hv : verifyNoGuard x_1 x_2 x_3 x_4 a (cOf x_1 x_2 a m) m
          = verify x_1 x_2 x_3 x_4 a (cOf x_1 x_2 a m) m := by
        unfold verifyNoGuard verify
        simp [hc]
      unfold candidateNoGuard candidate
      simp only [deriveC_of_pos x_1 x_2 a m hpos, Option.some_bind, hv]

/-- Witness of C10 at the window `(7, 6, 9, 0)` in FAST_SOLUTION mode. -/
theorem guard_is_redundant_witness :
    ((0 : Int) ≤ 7 ∧ (7 : Int) ≤ 65535) ∧ ((0 : Int) ≤ 6 ∧ (6 : Int) ≤ 65535) ∧
    ((0 : Int) ≤ 9 ∧ (9 : Int) ≤ 65535) ∧ ((0 : Int) ≤ 0 ∧ (0 : Int) ≤ 65535) ∧
    (∀ a m c : Int, (0 ≤ a ∧ a < 65535) → (7 ≤ m ∧ 1 ≤ m ∧ m < 65535) →
      deriveC 7 6 a m = some c → 0 ≤ c) ∧
    findSolutionNoGuard 7 6 9 0 Mode.FAST_SOLUTION = findSolution 7 6 9 0 Mode.FAST_SOLUTION :=
  ⟨by decide, by decide, by decide, by decide,
    guard_is_redundant 7 6 9 0 Mode.FAST_SOLUTION (by decide) (by decide) (by decide)
      (by decide)⟩

/-- C11 (no overflow on `[0, 65535]`) does not hold of the code: at the scanned
candidate `a = 65524`, `m = 65533` of the window `(65532, 0, 0, 0)` the product
`x_1 * a` is `4293918768`, which a 32-bit `int` cannot hold; the machine
product is `-1048528`. -/
theorem product_overflows_int :
    (65524, 65533) ∈ grid 65532 ∧
    (65532 * 65524 : Int) = 4293918768 ∧ ¬ fitsInt (65532 * 65524) ∧
    imul 65532 65524 = -1048528 ∧ imul 65532 65524 ≠ 65532 * 65524 := by
  refine ⟨?_, by decide, by decide, by decide, by decide⟩
  rw [mem_grid]
  decide

/-- C12 (the printed `x_5` is the exact `(a * x_4 + c) mod m`, in `[0, m)`)
does not hold of the code: on the window `(3, 18932, 26904, 49116)` the
all-solutions search prints `a = 50000`, `c = 0`, `m = 65534` with
`x_5 = -21120`, because `50000 * 49116` wraps; the exact value is `44418`. -/
theorem predicted_value_broken_by_overflow :
    (∃ rep, findSolution 3 18932 26904 49116 Mode.ALL_SOLUTIONS = some rep ∧
      (⟨50000, 0, 65534, -21120⟩ : Solution) ∈ rep.records) ∧
    (50000 * 49116 + 0 : Int) % 65534 = 44418 ∧ ¬ ((0 : Int) ≤ -21120) ∧
    ¬ fitsInt (50000 * 49116) := by
  refine ⟨?_, by decide, by decide, by decide⟩
  obtain ⟨rep, hrep, hrec⟩ := findSolution_all 3 18932 26904 49116 (by decide)
  refine ⟨rep, hrep, ?_⟩
  rw [hrec, mem_hits_candidate 3 18932 26904 49116 (by decide)]
  exact ⟨50000, 65534, by decide, by decide, by decide, by decide⟩

/-- C13: for `1 <= x_1 < 65535` the inner loop visits `m = x_1` first, and a
candidate `(a, x_1)` that passes the checks is printed by the all-solutions
search (which completes); on `(5, 0, 0, 0)` the first record is `a = 0`,
`c = 0`, `m = 5`, and on `(1, 0, 0, 0)` it is `a = 0`, `c = 0`, `m = 1`, a
modulus below the floor `2` of line 71. -/
theorem inner_loop_starts_at_x1 (x_1 x_2 x_3 x_4 : Int) (h : 1 ≤ x_1 ∧ x_1 < 65535) :
    (∃ t, row x_1 = x_1 :: t) ∧
    (∃ rep, findSolution x_1 x_2 x_3 x_4 Mode.ALL_SOLUTIONS = some rep ∧
      ∀ a r, (0 ≤ a ∧ a < 65535) → candidate x_1 x_2 x_3 x_4 a x_1 = some (some r) →
        r.m = x_1 ∧ r ∈ rep.records) ∧
    (∃ rep t, findSolution 5 0 0 0 Mode.ALL_SOLUTIONS = some rep ∧
      rep.records = (⟨0, 0, 5, 0⟩ : Solution) :: t) ∧
    (∃ rep t, findSolution 1 0 0 0 Mode.ALL_SOLUTIONS = some rep ∧
      rep.records = (⟨0, 0, 1, 0⟩ : Solution) :: t) := by
  refine ⟨?_, ?_, ?_, ?_⟩
  · obtain ⟨n, hn⟩ : ∃ n, (M_MAX - x_1).toNat = n + 1 :=
      ⟨(M_MAX - x_1).toNat - 1, by unfold M_MAX; omega⟩
    exact ⟨countFrom (x_1 + 1) n, by rw [row, hn]; rfl⟩
  · obtain ⟨rep, hrep, hrec⟩ := findSolution_all x_1 x_2 x_3 x_4 h.1
    refine ⟨rep, hrep, ?_⟩
    intro a r ha hc
    refine ⟨(candidate_tag _ _ _ _ _ _ _ hc).2, ?_⟩
    rw [hrec, mem_hits]
    exact ⟨(a, x_1), (mem_grid x_1 a x_1).2 ⟨ha, le_refl _, h.2⟩, hc⟩
  · obtain ⟨rep, hrep, hrec⟩ := findSolution_all 5 0 0 0 (by decide)
    obtain ⟨t, ht⟩ := first_record_of_first_candidate 5 0 0 0 (by decide) (by decide)
    exact ⟨rep, t, hrep, hrec.trans ht⟩
  · obtain ⟨rep, hrep, hrec⟩ := findSolution_all 1 0 0 0 (by decide)
    obtain ⟨t, ht⟩ := first_record_of_first_candidate 1 0 0 0 (by decide) (by decide)
    exact ⟨rep, t, hrep, hrec.trans ht⟩

/-- Witness of C13 at the window `(5, 0, 0, 0)`. -/
theorem inner_loop_starts_at_x1_witness :
    ((1 : Int) ≤ 5 ∧ (5 : Int) < 65535) ∧
    (∃ t, row 5 = 5 :: t) ∧
    (∃ rep, findSolution 5 0 0 0 Mode.ALL_SOLUTIONS = some rep ∧
      ∀ a r, (0 ≤ a ∧ a < 65535) → candidate 5 0 0 0 a 5 = some (some r) →
        r.m = 5 ∧ r ∈ rep.records) :=
  ⟨by decide, (inner_loop_starts_at_x1 5 0 0 0 (by decide)).1,
    (inner_loop_starts_at_x1 5 0 0 0 (by decide)).2.1⟩

/-- C14: for a window with every value in `[0, 65535]`, `x_1 >= 1`,
`x_2 = x_3` and `x_4 ≠ x_3`, the search completes in either mode, prints no
record and ends with the status `No solution is found.`. -/
theorem no_solution_when_x2_eq_x3 (x_1 x_2 x_3 x_4 : Int) (mode : Mode)
    (h1 : 1 ≤ x_1 ∧ x_1 ≤ 65535) (h2 : 0 ≤ x_2 ∧ x_2 ≤ 65535)
    (h3 : 0 ≤ x_3 ∧ x_3 ≤ 65535) (h4 : 0 ≤ x_4 ∧ x_4 ≤ 65535)
    (he : x_2 = x_3) (hne : x_4 ≠ x_3) :
    findSolution x_1 x_2 x_3 x_4 mode = some ⟨[], Status.noSolution⟩ := by
  have hnone : hits (candidate x_1 x_2 x_3 x_4) (grid x_1) = [] := by
    rw [List.eq_nil_iff_forall_not_mem]
    intro r hr
    rw [mem_hits_candidate x_1 x_2 x_3 x_4 h1.1] at hr
    obtain ⟨a, m, _, _, ⟨_, hp3, hp4, _⟩, _⟩ := hr
    apply hne
    rw [hp4, ← he, ← hp3, he]
  have hne' := candidate_grid_ne_none x_1 x_2 x_3 x_4 h1.1
  unfold findSolution
  cases mode with
  | ALL_SOLUTIONS =>
    rw [findSolutionWith_all _ _ hne', hnone]
    rfl
  | FAST_SOLUTION =>
    rw [findSolutionWith_fast _ _ hne', hnone]

/-- Witness of C14 at the window `(1, 2, 2, 3)` in ALL_SOLUTIONS mode. -/
theorem no_solution_when_x2_eq_x3_witness :
    ((1 : Int) ≤ 1 ∧ (1 : Int) ≤ 65535) ∧ ((0 : Int) ≤ 2 ∧ (2 : Int) ≤ 65535) ∧
    ((0 : Int) ≤ 3 ∧ (3 : Int) ≤ 65535) ∧ (2 : Int) = 2 ∧ (3 : Int) ≠ 2 ∧
    findSolution 1 2 2 3 Mode.ALL_SOLUTIONS = some ⟨[], Status.noSolution⟩ :=
  ⟨by decide, by decide, by decide, by decide, by decide,
    no_solution_when_x2_eq_x3 1 2 2 3 Mode.ALL_SOLUTIONS (by decide) (by decide) (by decide)
      (by decide) (by decide) (by decide)⟩

/-- C15 (four command-line arguments reach `findSolution` unchanged) does not
hold of the code: started with four arguments the argument vector has five
entries, `argc == 4` is false and the values come from the prompts; started
with three arguments `argc == 4` holds and `x_1` is `atoi` of the program
name, the three arguments landing in `x_2`, `x_3`, `x_4`. -/
theorem four_arguments_are_not_used (atoi : String → Int) (stoi : String → Option Int)
    (prog n_1 n_2 n_3 n_4 : String) (lines : List String) :
    mainArgs atoi stoi [prog, n_1, n_2, n_3, n_4] lines = interactive stoi lines ∧
    mainArgs atoi stoi [prog, n_1, n_2, n_3, n_4] [] = none ∧
    mainArgs atoi stoi [prog, n_1, n_2, n_3] lines
      = some (atoi prog, atoi n_1, atoi n_2, atoi n_3) :=
  ⟨rfl, rfl, rfl⟩

/-- C18 (multiplier-shift closure) does not hold of the code: on the window
`(60000, 0, 0, 0)` the all-solutions search prints `a = 0`, `c = 0`,
`m = 60001`, and `0 + 60001 < 65535`, yet it prints no record with
`a = 60001` and `m = 60001`, itself an exact solution, because
`60000 * 60001` wraps. -/
theorem shift_closure_broken_by_overflow :
    ∃ rep, findSolution 60000 0 0 0 Mode.ALL_SOLUTIONS = some rep ∧
      (⟨0, 0, 60001, 0⟩ : Solution) ∈ rep.records ∧ (0 + 60001 : Int) < 65535 ∧
      (∀ r ∈ rep.records, ¬ (r.a = 0 + 60001 ∧ r.m = 60001)) ∧
      (60001 * 60000 + 0 : Int) % 60001 = 0 ∧ ¬ fitsInt (60000 * 60001) := by
  obtain ⟨rep, hrep, hrec⟩ := findSolution_all 60000 0 0 0 (by decide)
  refine ⟨rep, hrep, ?_, by decide, ?_, by decide, by decide⟩
  · rw [hrec, mem_hits_candidate 60000 0 0 0 (by decide)]
    exact ⟨0, 60001, by decide, by decide, by decide, by decide⟩
  · intro r hr
    rw [hrec, mem_hits_candidate 60000 0 0 0 (by decide)] at hr
    obtain ⟨a, m, _, _, hp, rfl⟩ := hr
    rintro ⟨ha, hm⟩
    have ha' : a = 60001 := ha
    have hm' : m = 60001 := hm
    subst ha' hm'
    revert hp
    decide

/-- C16: for a window with every value in `[0, 65535]`, the search faults (in
either mode) exactly when `x_1 = 0`; then the faulting operation is the
remainder by `m = 0` at the candidate `(0, 0)`, which no scanned candidate
precedes; and for `x_1 >= 1` every scanned modulus is at least `1`, so no
remainder and no candidate faults. -/
theorem modulo_by_zero_iff_x1_zero (x_1 x_2 x_3 x_4 : Int) (mode : Mode)
    (h1 : 0 ≤ x_1 ∧ x_1 ≤ 65535) (h2 : 0 ≤ x_2 ∧ x_2 ≤ 65535)
    (h3 : 0 ≤ x_3 ∧ x_3 ≤ 65535) (h4 : 0 ≤ x_4 ∧ x_4 ≤ 65535) :
    (findSolution x_1 x_2 x_3 x_4 mode = none ↔ x_1 = 0) ∧
    (x_1 = 0 → (0, 0) ∈ grid x_1 ∧ (∀ p ∈ grid x_1, ¬ pairLt p (0, 0)) ∧
      imod (imul x_1 0) 0 = none ∧ candidate x_1 x_2 x_3 x_4 0 0 = none) ∧
    (1 ≤ x_1 → ∀ a m : Int, (0 ≤ a ∧ a < 65535) → (x_1 ≤ m ∧ m < 65535) →
      1 ≤ m ∧ (∀ x, imod x m = some (Int.tmod x m)) ∧
        candidate x_1 x_2 x_3 x_4 a m ≠ none) := by
  refine ⟨⟨?_, ?_⟩, ?_, ?_⟩
  · intro hnone
    by_contra hx
    have hpos : 1 ≤ x_1 := by omega
    have hne := candidate_grid_ne_none x_1 x_2 x_3 x_4 hpos
    unfold findSolution at hnone
    cases mode with
    | ALL_SOLUTIONS => rw [findSolutionWith_all _ _ hne] at hnone; cases hnone
    | FAST_SOLUTION => rw [findSolutionWith_fast _ _ hne] at hnone; cases hnone
  · rintro rfl
    exact findSolution_zero x_2 x_3 x_4 mode
  · rintro rfl
    refine ⟨(mem_grid 0 0 0).2 (by decide), ?_, by decide, candidate_zero 0 x_2 x_3 x_4 0⟩
    rintro ⟨a, m⟩ hp hlt
    rw [mem_grid] at hp
    have hlt' : a < 0 ∨ (a = 0 ∧ m < 0) := hlt
    omega
  · intro hpos a m _ hm
    have hm1 : 1 ≤ m := by omega
    refine ⟨hm1, fun x => imod_of_pos x m hm1, ?_⟩
    rw [candidate_of_pos _ _ _ _ _ _ hm1]
    simp

/-- Witness of C16 at the window `(7, 6, 9, 0)` in FAST_SOLUTION mode. -/
theorem modulo_by_zero_iff_x1_zero_witness :
    ((0 : Int) ≤ 7 ∧ (7 : Int) ≤ 65535) ∧ ((0 : Int) ≤ 6 ∧ (6 : Int) ≤ 65535) ∧
    ((0 : Int) ≤ 9 ∧ (9 : Int) ≤ 65535) ∧ ((0 : Int) ≤ 0 ∧ (0 : Int) ≤ 65535) ∧
    (findSolution 7 6 9 0 Mode.FAST_SOLUTION = none ↔ (7 : Int) = 0) :=
  ⟨by decide, by decide, by decide, by decide,
    (modulo_by_zero_iff_x1_zero 7 6 9 0 Mode.FAST_SOLUTION (by decide) (by decide)
      (by decide) (by decide)).1⟩

/-- C19: `getIntFromCin`, whenever it returns, returns the value `stoi` gives
for the first line whose value lies in `[min, max]`, having consumed that line
and every line before it (each of them unparseable or out of range); it does
return when the input holds such a line; and on the interactive path the four
values `main` passes to `findSolution` lie in `[0, 65535]`. -/
theorem interactive_validation (atoi : String → Int) (stoi : String → Option Int)
    (caption : String) (min max : Int) (lines : List String) :
    (∀ v rest, getIntFromCin stoi caption min max lines = some (v, rest) →
      ∃ pre buffer, lines = pre ++ buffer :: rest ∧ stoi buffer = some v ∧
        (min ≤ v ∧ v ≤ max) ∧
        ∀ l ∈ pre, ∀ w, stoi l = some w → ¬ (min ≤ w ∧ w ≤ max)) ∧
    ((∃ l ∈ lines, ∃ w, stoi l = some w ∧ min ≤ w ∧ w ≤ max) →
      ∃ v rest, getIntFromCin stoi caption min max lines = some (v, rest)) ∧
    (∀ (argv : List String) (x_1 x_2 x_3 x_4 : Int), argv.length ≠ 4 →
      mainArgs atoi stoi argv lines = some (x_1, x_2, x_3, x_4) →
      (0 ≤ x_1 ∧ x_1 ≤ 65535) ∧ (0 ≤ x_2 ∧ x_2 ≤ 65535) ∧
        (0 ≤ x_3 ∧ x_3 ≤ 65535) ∧ (0 ≤ x_4 ∧ x_4 ≤ 65535)) ∧
    (∀ (l_1 l_2 l_3 l_4 : String) (v_1 v_2 v_3 v_4 : Int),
      stoi l_1 = some v_1 → stoi l_2 = some v_2 → stoi l_3 = some v_3 →
      stoi l_4 = some v_4 → (0 ≤ v_1 ∧ v_1 ≤ 65535) → (0 ≤ v_2 ∧ v_2 ≤ 65535) →
      (0 ≤ v_3 ∧ v_3 ≤ 65535) → (0 ≤ v_4 ∧ v_4 ≤ 65535) →
      interactive stoi [l_1, l_2, l_3, l_4] = some (v_1, v_2, v_3, v_4)) := by
  refine ⟨getIntFromCin_some stoi caption min max lines,
    getIntFromCin_returns stoi caption min max lines, ?_, ?_⟩
  · intro argv x_1 x_2 x_3 x_4 hlen h
    rw [mainArgs_interactive atoi stoi argv lines hlen] at h
    exact interactive_range stoi lines x_1 x_2 x_3 x_4 h
  · intro l_1 l_2 l_3 l_4 v_1 v_2 v_3 v_4 e1 e2 e3 e4 r1 r2 r3 r4
    unfold interactive
    rw [getIntFromCin_accepts stoi _ 0 65535 l_1 _ v_1 e1 r1]
    simp only [Option.some_bind]
    rw [getIntFromCin_accepts stoi _ 0 65535 l_2 _ v_2 e2 r2]
    simp only [Option.some_bind]
    rw [getIntFromCin_accepts stoi _ 0 65535 l_3 _ v_3 e3 r3]
    simp only [Option.some_bind]
    rw [getIntFromCin_accepts stoi _ 0 65535 l_4 _ v_4 e4 r4]
    rfl

/-- C17: for a window with `1 <= x_1` and every value in `[0, 32768]`, at
every scanned candidate the products `x_1 * a`, `a * x_i` and the sums
`a * x_i + c` lie in `[0, 2^31 - 1]` and the machine operations return them
unchanged; the search computed in exact integer arithmetic prints the same
record sequence as `findSolution`, in either mode. -/
theorem exact_and_machine_agree (x_1 x_2 x_3 x_4 : Int) (mode : Mode)
    (h1 : 1 ≤ x_1 ∧ x_1 ≤ 32768) (h2 : 0 ≤ x_2 ∧ x_2 ≤ 32768)
    (h3 : 0 ≤ x_3 ∧ x_3 ≤ 32768) (h4 : 0 ≤ x_4 ∧ x_4 ≤ 32768) :
    (∀ a m c : Int, (0 ≤ a ∧ a < 65535) → (x_1 ≤ m ∧ m < 65535) →
      deriveC x_1 x_2 a m = some c →
      (0 ≤ x_1 * a ∧ x_1 * a ≤ 2147483647 ∧ imul x_1 a = x_1 * a) ∧
      ∀ x ∈ [x_1, x_2, x_3, x_4],
        (0 ≤ a * x ∧ a * x ≤ 2147483647 ∧ imul a x = a * x) ∧
        (0 ≤ a * x + c ∧ a * x + c ≤ 2147483647 ∧ iadd (imul a x) c = a * x + c)) ∧
    (findSolutionExact x_1 x_2 x_3 x_4 mode).map Report.records
      = (findSolution x_1 x_2 x_3 x_4 mode).map Report.records := by
  have h1' : 0 ≤ x_1 ∧ x_1 ≤ 32768 := ⟨by omega, h1.2⟩
  constructor
  · intro a m c ha hm hc
    have hm' : 1 ≤ m ∧ m < 65535 := ⟨by omega, hm.2⟩
    rw [deriveC_of_pos x_1 x_2 a m hm'.1, Option.some.injEq] at hc
    obtain ⟨_, hc0, hc1⟩ := cOf_exact x_1 x_2 a m h1' h2 ha hm'
    rw [hc] at hc0 hc1
    have key : ∀ x : Int, (0 ≤ x ∧ x ≤ 32768) →
        (0 ≤ a * x ∧ a * x ≤ 2147483647 ∧ imul a x = a * x) ∧
        (0 ≤ a * x + c ∧ a * x + c ≤ 2147483647 ∧ iadd (imul a x) c = a * x + c) := by
      intro x hx
      have hP := mul_bounds a x ha hx
      have hS := sum_exact a x c ha hx ⟨hc0, hc1⟩
      exact ⟨⟨hP.1, by omega, wrap_of_range _ (by omega) (by omega)⟩, hS.2.1, hS.2.2, hS.1⟩
    refine ⟨?_, ?_⟩
    · have hP := (key x_1 h1').1
      rw [Int.mul_comm a x_1] at hP
      exact ⟨hP.1, hP.2.1, wrap_of_range _ (by omega) (by omega)⟩
    · intro x hx
      simp only [List.mem_cons, List.mem_singleton, List.not_mem_nil, or_false] at hx
      rcases hx with rfl | rfl | rfl | rfl
      · exact key _ h1'
      · exact key _ h2
      · exact key _ h3
      · exact key _ h4
  · have hcongr : findSolutionExact x_1 x_2 x_3 x_4 mode = findSolution x_1 x_2 x_3 x_4 mode := by
      unfold findSolutionExact findSolution
      apply findSolutionWith_congr
      rintro ⟨a, m⟩ hp
      rw [mem_grid] at hp
      exact candidateExact_eq x_1 x_2 x_3 x_4 a m h1' h2 h3 h4 hp.1
        ⟨by have := hp.2.1; omega, hp.2.2⟩
    rw [hcongr]

/-- Witness of C17 at the window `(7, 6, 9, 0)` in FAST_SOLUTION mode. -/
theorem exact_and_machine_agree_witness :
    ((1 : Int) ≤ 7 ∧ (7 : Int) ≤ 32768) ∧ ((0 : Int) ≤ 6 ∧ (6 : Int) ≤ 32768) ∧
    ((0 : Int) ≤ 9 ∧ (9 : Int) ≤ 32768) ∧ ((0 : Int) ≤ 0 ∧ (0 : Int) ≤ 32768) ∧
    (findSolutionExact 7 6 9 0 Mode.FAST_SOLUTION).map Report.records
      = (findSolution 7 6 9 0 Mode.FAST_SOLUTION).map Report.records :=
  ⟨by decide, by decide, by decide, by decide,
    (exact_and_machine_agree 7 6 9 0 Mode.FAST_SOLUTION (by decide) (by decide) (by decide)
      (by decide)).2⟩

end LCG
